import Mathlib

/-!
Verification of the magnolia torrent-streaming orchestration layer
(`src-tauri/src/torrent.rs`) against its natural-language specification.

The Rust source is shallowly embedded: `u64` arithmetic is `Nat` with an
explicit `% 2 ^ 64`, byte streams are lists, the shared maps are association
lists, and the external download engine is a small explicit state record.
-/

namespace Magnolia

/-! ## u64 arithmetic (Rust release-mode wrap-around semantics) -/

/-- Wrapping `u64` subtraction: `a - b` for `a, b < 2^64`. -/
def sub64 (a b : Nat) : Nat := (a + 2 ^ 64 - b) % 2 ^ 64

/-- Wrapping `u64` addition. -/
def add64 (a b : Nat) : Nat := (a + b) % 2 ^ 64

theorem sub64_of_le {a b : Nat} (hba : b ≤ a) (ha : a < 2 ^ 64) :
    sub64 a b = a - b := by
  unfold sub64
  have h1 : a + 2 ^ 64 - b = (a - b) + 2 ^ 64 := by omega
  rw [h1, Nat.add_mod_right]
  exact Nat.mod_eq_of_lt (by omega)

theorem add64_of_lt {a b : Nat} (h : a + b < 2 ^ 64) : add64 a b = a + b :=
  Nat.mod_eq_of_lt h

/-! ## HTTP Range header parsing and `stream_file` (torrent.rs 430–502)

The handler parses `bytes=start-[end]`, falling back with `unwrap_or` exactly
as the source does, and builds the response from the engine byte stream:
seek to `start`, then `take(end - start + 1)` bytes. -/

/-- `str::parse::<u64>` over the digit characters, accumulating the value.
Any non-digit character fails the parse. -/
def parse_u64_digits : List Char → Nat → Option Nat
  | [], acc => some acc
  | c :: rest, acc =>
    if c.isDigit then parse_u64_digits rest (10 * acc + (c.toNat - 48)) else none

/-- Rust `str::parse::<u64>`: optional leading `+`, at least one digit,
value must fit in `u64`. -/
def parse_u64 (cs : List Char) : Option Nat :=
  let cs' := match cs with
    | '+' :: rest => rest
    | other => other
  match cs' with
  | [] => none
  | _ =>
    match parse_u64_digits cs' 0 with
    | some v => if v < 2 ^ 64 then some v else none
    | none => none

/-- Rust `str::strip_prefix`. -/
def dropPfx : List Char → List Char → Option (List Char)
  | [], s => some s
  | _ :: _, [] => none
  | a :: as, b :: bs => if a = b then dropPfx as bs else none

/-- Rust `str::split('-')` (keeps empty segments, never returns an empty list). -/
def split_dash : List Char → List (List Char)
  | [] => [[]]
  | c :: rest =>
    if c = '-' then [] :: split_dash rest
    else
      match split_dash rest with
      | [] => [[c]]
      | s :: ss => (c :: s) :: ss

/-- The `(start, end, status)` triple computed by `stream_file` from the Range
header (torrent.rs 452–467). The `Bool` is `true` for `PARTIAL_CONTENT`. -/
def parse_range (file_size : Nat) (range_str : List Char) : Nat × Nat × Bool :=
  match dropPfx "bytes=".toList range_str with
  | some range_values =>
    let parts := split_dash range_values
    let start := (parse_u64 (parts.headD [])).getD 0
    let endv :=
      if 1 < parts.length && !(parts.getD 1 []).isEmpty then
        min ((parse_u64 (parts.getD 1 [])).getD (sub64 file_size 1)) (sub64 file_size 1)
      else sub64 file_size 1
    (start, endv, true)
  | none => (0, sub64 file_size 1, false)

/-- The observable parts of the HTTP response built by `stream_file`. -/
structure StreamResponse where
  status : Nat
  contentLength : Nat
  contentRange : Option (Nat × Nat × Nat)
  acceptRanges : Bool
  body : List Nat
  deriving DecidableEq

/-- `stream_file` (torrent.rs 430–502) over an in-memory engine double:
`content` is the canonical file content, the body is the engine stream after
seeking to `start`, capped to `end - start + 1` bytes. -/
def stream_file (content : List Nat) (range_header : Option (List Char)) :
    StreamResponse :=
  let file_size := content.length
  let ser :=
    match range_header with
    | some r => parse_range file_size r
    | none => (0, sub64 file_size 1, false)
  let start := ser.1
  let endv := ser.2.1
  let is_partial := ser.2.2
  let content_length := add64 (sub64 endv start) 1
  { status := if is_partial then 206 else 200
    contentLength := content_length
    contentRange := if is_partial then some (start, endv, file_size) else none
    acceptRanges := true
    body := (content.drop start).take content_length }

/-! ## Audio codec classification (torrent.rs 23–28, 1476–1510)

`extract_mkv_metadata_ffprobe` lowercases the codec name, long name and
profile, computes per-track `needs_transcoding` from an AC-3 variant check, a
supported-codec whitelist and the `UNSUPPORTED_AUDIO_CODECS` blacklist. -/

/-- ASCII lowercasing of a character (Rust `str::to_lowercase` restricted to
the ASCII codec/profile names this code classifies). -/
def charToLower (c : Char) : Char :=
  if 65 ≤ c.toNat ∧ c.toNat ≤ 90 then Char.ofNat (c.toNat + 32) else c

/-- Rust `str::to_lowercase` on ASCII strings. -/
def toLowerStr (s : String) : String := String.mk (s.toList.map charToLower)

/-- Boolean prefix test on character lists (Rust `str::starts_with`). -/
def prefixB : List Char → List Char → Bool
  | [], _ => true
  | _ :: _, [] => false
  | a :: as, b :: bs => (a == b) && prefixB as bs

/-- Boolean substring test (Rust `str::contains`). -/
def infixB : List Char → List Char → Bool
  | needle, [] => prefixB needle []
  | needle, h :: t => prefixB needle (h :: t) || infixB needle t

/-- `hay.contains(needle)`. -/
def strContains (hay needle : String) : Bool := infixB needle.toList hay.toList

/-- `s.starts_with(p)`. -/
def startsWithB (s p : String) : Bool := prefixB p.toList s.toList

/-- `UNSUPPORTED_AUDIO_CODECS` (torrent.rs 23–28). -/
def unsupported_audio_codecs : List String :=
  ["truehd", "mlp", "pcm", "dsd",
   "dts", "dca", "dts-hd", "dtshd", "dts_hd", "dtse",
   "ac3", "eac3", "ac-3", "e-ac-3", "dolby", "atmos",
   "cook", "ra", "sipr", "wma", "wmav1", "wmav2", "wmapro"]

/-- `is_ac3_variant` (torrent.rs 1481–1491). -/
def is_ac3_variant (codec_lower long_name_lower : String) : Bool :=
  codec_lower == "ac3"
  || codec_lower == "eac3"
  || codec_lower == "ac-3"
  || codec_lower == "e-ac-3"
  || startsWithB codec_lower "ac3"
  || startsWithB codec_lower "eac3"
  || strContains long_name_lower "ac-3"
  || strContains long_name_lower "ac3"
  || strContains long_name_lower "e-ac-3"
  || strContains long_name_lower "eac3"
  || strContains long_name_lower "dolby digital"

/-- The whitelist match in `is_known_supported` (torrent.rs 1494–1496). -/
def in_supported_whitelist (codec_lower : String) : Bool :=
  codec_lower == "aac" || codec_lower == "mp3" || codec_lower == "opus"
  || codec_lower == "vorbis" || codec_lower == "mp2" || codec_lower == "mp1"
  || codec_lower == "flac"

/-- `is_known_supported` (torrent.rs 1494–1499). -/
def is_known_supported (codec_lower long_name_lower : String) : Bool :=
  in_supported_whitelist codec_lower
  && !(strContains long_name_lower "truehd")
  && !(strContains long_name_lower "dts")
  && !(strContains long_name_lower "atmos")
  && !(is_ac3_variant codec_lower long_name_lower)

/-- `is_known_unsupported` (torrent.rs 1502–1507). -/
def is_known_unsupported (codec_lower long_name_lower profile_lower : String) :
    Bool :=
  is_ac3_variant codec_lower long_name_lower
  || unsupported_audio_codecs.any (fun u =>
      codec_lower == u
      || strContains codec_lower u
      || strContains long_name_lower u
      || strContains profile_lower u)

/-- Per-track transcode verdict (torrent.rs 1476–1510): lowercase the three
probe strings, then `is_known_unsupported || !is_known_supported`. -/
def needs_transcoding (codec_name codec_long_name profile : String) : Bool :=
  let codec_lower := toLowerStr codec_name
  let long_name_lower := toLowerStr codec_long_name
  let profile_lower := toLowerStr profile
  is_known_unsupported codec_lower long_name_lower profile_lower
  || !(is_known_supported codec_lower long_name_lower)

/-! ## Metadata probe sampling loop (torrent.rs 250–335)

`get_file_metadata` reads the engine stream into a scratch file, tolerating at
most 150 consecutive empty reads, then requires at least 10 MB before running
the prober. The engine stream is modelled as the list of successive byte
counts returned by `stream.read`. -/

/-- The read loop of `get_file_metadata` (torrent.rs 258–289): returns the
total number of bytes sampled. `reads` are the successive results of
`stream.read`; the loop stops when `max_size` is reached or when the 150th
consecutive empty read occurs. -/
def sample_loop (max_size : Nat) : List Nat → Nat → Nat → Nat
  | [], total, _ => total
  | r :: rest, total, consecutive_empty =>
    if max_size ≤ total then total
    else if r = 0 then
      if 150 ≤ consecutive_empty + 1 then total
      else sample_loop max_size rest total (consecutive_empty + 1)
    else sample_loop max_size rest (total + r) 0

/-- Total bytes sampled by `get_file_metadata` for a file of `file_size`
bytes: the cap is `min(file_size, 100 MB)` (torrent.rs 220, 252). -/
def sampled_total (file_size : Nat) (reads : List Nat) : Nat :=
  sample_loop (min file_size (100 * 1024 * 1024)) reads 0 0

/-- Observable outcome of the metadata probe endpoint. -/
structure ProbeOutcome where
  status : Nat
  proberInvoked : Bool
  scratchDeleted : Bool
  cached : Bool
  deriving DecidableEq

/-- `get_file_metadata` after the sampling loop (torrent.rs 295–335): fewer
than 10 MB sampled is a 503 with the scratch file deleted and no prober run;
otherwise ffprobe is invoked, the scratch file deleted, the result cached. -/
def get_file_metadata_outcome (file_size : Nat) (reads : List Nat) :
    ProbeOutcome :=
  let total := sampled_total file_size reads
  if total < 10 * 1024 * 1024 then
    { status := 503, proberInvoked := false, scratchDeleted := true,
      cached := false }
  else
    { status := 200, proberInvoked := true, scratchDeleted := true,
      cached := true }

/-! ## Transcode progress tracking (torrent.rs 1639–1717)

`transcode_audio_track` inserts a zero state, then for each
`out_time_ms=<t>` line reported by the external process sets
`progress := min ((t / 1e6) / duration * 100) 99` (or `0` when the probed
duration is not positive), and on successful exit sets `progress := 100`,
`completed := true`. Numeric values are modelled in `ℚ`. -/

/-- `TranscodeState` (torrent.rs 159–165). -/
structure TranscodeState where
  progress : ℚ
  outputPath : Option String
  completed : Bool
  error : Option String
  deriving DecidableEq

/-- The progress value written for one reported `out_time_ms` value
(torrent.rs 1678–1684). -/
def transcode_progress_update (duration : ℚ) (time_ms : ℤ) : ℚ :=
  if 0 < duration then min (((time_ms : ℚ) / 1000000) / duration * 100) 99
  else 0

/-- The successive values taken by `state.progress` during
`transcode_audio_track`: the initial `0`, one value per reported
`out_time_ms` line, then `100` if the process exits successfully. -/
def transcode_trace (duration : ℚ) (times : List ℤ) (success : Bool) :
    List ℚ :=
  0 :: (times.map (transcode_progress_update duration)
        ++ if success then [100] else [])

/-- The final `TranscodeState` of `transcode_audio_track`
(torrent.rs 1699–1717). -/
def transcode_final (output_path : String) (duration : ℚ) (times : List ℤ)
    (success : Bool) : TranscodeState :=
  if success then
    { progress := 100, outputPath := some output_path, completed := true,
      error := none }
  else
    { progress := (times.map (transcode_progress_update duration)).getLastD 0,
      outputPath := some output_path, completed := false,
      error := some "FFmpeg transcoding failed" }

/-! ## Session lifecycle manager (torrent.rs 122–179, 808–895, 1113–1179)

The download engine is external; it is modelled by the set of live sessions
(an association list from engine session id to its paused flag) together with
the id the next `add_torrent` call would return. -/

/-- `TorrentEntry` (torrent.rs 122–125). -/
structure TorrentEntry where
  magnet_url : String
  session_id : Option Nat
  deriving DecidableEq

/-- `CachedTorrent` (torrent.rs 127–134); `cached_at` as seconds since epoch. -/
structure CachedTorrent where
  handle_id : Nat
  session_id : Nat
  magnet_url : String
  cached_at : Nat
  deriving DecidableEq

/-- The external download engine: live sessions (id, is_paused) and the id
assigned to the next added torrent. -/
structure Engine where
  sessions : List (Nat × Bool)
  nextSession : Nat
  deriving DecidableEq

/-- `session.get(id)`: the paused flag of a live session, `none` if the
engine has no such session. -/
def eng_get : List (Nat × Bool) → Nat → Option Bool
  | [], _ => none
  | (k, b) :: rest, sid => if k = sid then some b else eng_get rest sid

/-- `session.delete(id, true)`: full removal of a session from the engine. -/
def eng_delete : List (Nat × Bool) → Nat → List (Nat × Bool)
  | [], _ => []
  | (k, b) :: rest, sid =>
    if k = sid then eng_delete rest sid else (k, b) :: eng_delete rest sid

/-- `session.pause`/`session.unpause` on one session id. -/
def eng_set_paused : List (Nat × Bool) → Nat → Bool → List (Nat × Bool)
  | [], _, _ => []
  | (k, pb) :: rest, sid, b =>
    (k, if k = sid then b else pb) :: eng_set_paused rest sid b

/-- The `TorrentManager` state touched by the lifecycle operations:
handle map, bounded cache, engine. -/
structure Manager where
  torrents : List (Nat × TorrentEntry)
  cache : List CachedTorrent
  engine : Engine
  deriving DecidableEq

/-- `torrents.get(&handle_id)` on the handle map. -/
def torrents_lookup : List (Nat × TorrentEntry) → Nat → Option TorrentEntry
  | [], _ => none
  | (k, e) :: rest, hid => if k = hid then some e else torrents_lookup rest hid

/-- `torrents.get_mut(&handle_id)` followed by `entry.session_id = sid`:
updates the entry if the handle is present. -/
def set_session : List (Nat × TorrentEntry) → Nat → Option Nat →
    List (Nat × TorrentEntry)
  | [], _, _ => []
  | (k, e) :: rest, hid, sid =>
    (k, if k = hid then { e with session_id := sid } else e)
      :: set_session rest hid sid

/-- `cache.retain(|ct| ct.handle_id != handle_id && ct.magnet_url != magnet_url)`
(torrent.rs 1148). -/
def retain_cache (cache : List CachedTorrent) (handle_id : Nat)
    (magnet_url : String) : List CachedTorrent :=
  cache.filter (fun ct =>
    decide (ct.handle_id ≠ handle_id) && decide (ct.magnet_url ≠ magnet_url))

/-- The `while cache.len() > 10` eviction loop of `stop_stream`
(torrent.rs 1154–1165): pop the back entry, purge its session from the
engine, clear its handle's `session_id`. -/
def evict_loop (cache : List CachedTorrent)
    (torrents : List (Nat × TorrentEntry)) (eng : Engine) :
    List CachedTorrent × List (Nat × TorrentEntry) × Engine :=
  if 10 < cache.length then
    match cache.getLast? with
    | some oldest =>
      evict_loop cache.dropLast (set_session torrents oldest.handle_id none)
        { eng with sessions := eng_delete eng.sessions oldest.session_id }
    | none => (cache, torrents, eng)
  else (cache, torrents, eng)
termination_by cache.length
decreasing_by simp only [List.length_dropLast]; omega

/-- `TorrentManager::stop_stream` (torrent.rs 1113–1179). With
`delete_files = true` the session is purged and unbound; otherwise it is
paused, its file data cleared, and a `CachedTorrent` is pushed to the front of
the bounded cache, evicting from the back past 10 entries. -/
def stop_stream (st : Manager) (handle_id : Nat) (delete_files : Bool)
    (now : Nat) : Manager :=
  match torrents_lookup st.torrents handle_id with
  | none => st
  | some entry =>
    match entry.session_id with
    | none => st
    | some session_id =>
      if delete_files then
        { torrents := set_session st.torrents handle_id none,
          cache := st.cache,
          engine := { st.engine with
            sessions := eng_delete st.engine.sessions session_id } }
      else
        let eng1 : Engine :=
          if (eng_get st.engine.sessions session_id).isSome then
            { st.engine with
              sessions := eng_set_paused st.engine.sessions session_id true }
          else st.engine
        let cached : CachedTorrent :=
          ⟨handle_id, session_id, entry.magnet_url, now⟩
        let cache2 :=
          cached :: retain_cache st.cache handle_id entry.magnet_url
        let out := evict_loop cache2 st.torrents eng1
        { torrents := out.2.1, cache := out.1, engine := out.2.2 }

/-- `cache.iter().find(|ct| ct.handle_id == handle_id)` (torrent.rs 816–818). -/
def find_cached : List CachedTorrent → Nat → Option CachedTorrent
  | [], _ => none
  | ct :: rest, hid =>
    if ct.handle_id = hid then some ct else find_cached rest hid

/-- `session.add_torrent` with `only_files = [file_index]` (torrent.rs
862–883), modelled as the engine returning `Added` with a fresh session id. -/
def add_fresh (st : Manager) (handle_id : Nat) : Option Manager :=
  some { torrents :=
           set_session st.torrents handle_id (some st.engine.nextSession),
         cache := st.cache,
         engine := { sessions := (st.engine.nextSession, false)
                       :: st.engine.sessions,
                     nextSession := st.engine.nextSession + 1 } }

/-- `TorrentManager::prepare_stream` (torrent.rs 808–895). `none` models the
`Torrent handle not found` error. If a cached entry exists, it is removed
from the cache and its engine session is unpaused and rebound; only if the
engine no longer knows the cached session (or there is no cached entry) is a
fresh session added. -/
def prepare_stream (st : Manager) (handle_id : Nat) : Option Manager :=
  match torrents_lookup st.torrents handle_id with
  | none => none
  | some _entry =>
    match (find_cached st.cache handle_id).map CachedTorrent.session_id with
    | some session_id =>
      let cache1 := st.cache.filter (fun ct => !(decide (ct.handle_id = handle_id)))
      match eng_get st.engine.sessions session_id with
      | some is_paused =>
        let eng1 : Engine :=
          if is_paused then
            { st.engine with
              sessions := eng_set_paused st.engine.sessions session_id false }
          else st.engine
        some { torrents := set_session st.torrents handle_id (some session_id),
               cache := cache1,
               engine := eng1 }
      | none => add_fresh { st with cache := cache1 } handle_id
    | none => add_fresh st handle_id

/-! ## Stream status (torrent.rs 897–1111)

`get_stream_status` derives a readiness string from engine stats, the
metadata cache and the transcode-state map. The transcode state is read
before the (possible) insertion of a fresh transcode state, and the status is
computed from that pre-read value. -/

/-- The status string computed by `get_stream_status` (torrent.rs 925–950,
1085–1096) given the engine's answers and the pre-read transcode state:
`is_ready = streamable && (progress > 2 MB || finished)`, then
`initializing` / `transcoding` / `ready`. -/
def stream_status_of (is_streamable : Bool) (progress_bytes : Nat)
    (finished : Bool) (needs_audio_transcoding : Bool)
    (tstate : Option TranscodeState) : String :=
  let has_buffer := decide (2 * 1024 * 1024 < progress_bytes) || finished
  let is_ready := is_streamable && has_buffer
  let transcode_progress := tstate.map TranscodeState.progress
  let transcode_completed := (tstate.map TranscodeState.completed).getD false
  let transcode_streaming_ready :=
    transcode_progress.isSome && !transcode_completed
  if !is_ready then "initializing"
  else if needs_audio_transcoding && !transcode_streaming_ready then
    "transcoding"
  else "ready"

/-- The slice of `MkvMetadata` that `get_stream_status` consults. -/
structure MkvMetadataModel where
  needsAudioTranscoding : Bool
  deriving DecidableEq

/-- The two shared maps of `AppState`/`TorrentManager` read and written by
`get_stream_status`: `transcode_states` and `metadata_cache`, both keyed by
`(session_id, file_index)`. -/
structure ManagerMaps where
  transcodeStates : List ((Nat × Nat) × TranscodeState)
  metadataCache : List ((Nat × Nat) × MkvMetadataModel)
  deriving DecidableEq

/-- `HashMap::get` on a `(session_id, file_index)`-keyed map. -/
def al_lookup {α : Type} : List ((Nat × Nat) × α) → Nat × Nat → Option α
  | [], _ => none
  | (k, v) :: rest, key => if k = key then some v else al_lookup rest key

/-- The engine-side inputs of one `get_stream_status` poll. `ffprobeResult`
is what running ffprobe on the fully-downloaded on-disk file would return
(`none` models its failure). -/
structure StatusInputs where
  sessionId : Nat
  fileIndex : Nat
  isStreamable : Bool
  progressBytes : Nat
  totalBytes : Nat
  finished : Bool
  fileNameSupported : Bool
  fileOnDisk : Bool
  ffprobeResult : Option MkvMetadataModel
  deriving DecidableEq

/-- The metadata chosen inside `stream_info` (torrent.rs 952–992): for a
supported video extension, ffprobe on the finished on-disk file, otherwise
the metadata cache. -/
def status_metadata (inp : StatusInputs) (maps : ManagerMaps) :
    Option MkvMetadataModel :=
  if inp.fileNameSupported then
    if decide (inp.totalBytes ≤ inp.progressBytes)
        && decide (0 < inp.totalBytes) then
      if inp.fileOnDisk then inp.ffprobeResult
      else al_lookup maps.metadataCache (inp.sessionId, inp.fileIndex)
    else al_lookup maps.metadataCache (inp.sessionId, inp.fileIndex)
  else none

/-- The `TranscodeState` inserted when transcoding is first found to be
needed (torrent.rs 1007–1012). -/
def initial_transcode_state : TranscodeState :=
  { progress := 0, outputPath := none, completed := false, error := none }

/-- `TorrentManager::get_stream_status` (torrent.rs 897–1111): returns the
status string and the updated shared maps. The transcode state is read first
(torrent.rs 942–950); if the stream is ready, metadata is resolved and — when
it requires transcoding and no transcode state exists — a zero state is
inserted (torrent.rs 996–1013); the status combines the metadata verdicts
with the pre-read transcode state (torrent.rs 1069–1096). -/
def get_stream_status (inp : StatusInputs) (maps : ManagerMaps) :
    String × ManagerMaps :=
  let key := (inp.sessionId, inp.fileIndex)
  let tsPre := al_lookup maps.transcodeStates key
  let has_buffer := decide (2 * 1024 * 1024 < inp.progressBytes) || inp.finished
  let is_ready := inp.isStreamable && has_buffer
  let metaOpt := if is_ready then status_metadata inp maps else none
  let maps' :=
    if is_ready then
      match metaOpt with
      | some m =>
        if m.needsAudioTranscoding
            && (al_lookup maps.transcodeStates key).isNone then
          { maps with transcodeStates :=
              (key, initial_transcode_state) :: maps.transcodeStates }
        else maps
      | none => maps
    else maps
  let needs_from_stream :=
    (metaOpt.map MkvMetadataModel.needsAudioTranscoding).getD false
  let needs_from_cache :=
    ((al_lookup maps'.metadataCache key).map
      MkvMetadataModel.needsAudioTranscoding).getD false
  let needs := needs_from_stream || needs_from_cache
  (stream_status_of inp.isStreamable inp.progressBytes inp.finished needs tsPre,
   maps')

/-! ## Theorems -/

/-- Equation lemma for `sample_loop` on a cons cell. -/
theorem sample_loop_cons (m r total consec : Nat) (rest : List Nat) :
    sample_loop m (r :: rest) total consec =
      if m ≤ total then total
      else if r = 0 then
        if 150 ≤ consec + 1 then total
        else sample_loop m rest total (consec + 1)
      else sample_loop m rest (total + r) 0 := rfl

/-- A run of `n ≤ 149 - consec` empty reads only bumps the retry counter. -/
theorem sample_loop_replicate_zero (m : Nat) :
    ∀ (n consec total : Nat) (rest : List Nat), consec + n ≤ 149 → total < m →
      sample_loop m (List.replicate n 0 ++ rest) total consec =
        sample_loop m rest total (consec + n) := by
  intro n
  induction n with
  | zero => intro consec total rest _ _; simp
  | succ k ih =>
    intro consec total rest h hm
    rw [List.replicate_succ, List.cons_append, sample_loop_cons,
      if_neg (by omega), if_pos rfl, if_neg (by omega),
      ih (consec + 1) total rest (by omega) hm]
    congr 1
    omega

/-- C7: the metadata probe loop tolerates up to 150 consecutive empty reads
(it keeps sampling through 149 empty reads and gives up on the 150th), and
the endpoint responds 503 without invoking the prober — deleting the scratch
file — when fewer than 10 MB were sampled, while at least 10 MB sampled leads
to the prober being invoked and the result cached. -/
theorem metadata_probe_bounded_retry :
    (∀ (m total : Nat) (rest : List Nat), total < m →
        sample_loop m (List.replicate 149 0 ++ rest) total 0 =
          sample_loop m rest total 149) ∧
    (∀ (m total : Nat) (rest : List Nat), total < m →
        sample_loop m (List.replicate 150 0 ++ rest) total 0 = total) ∧
    (∀ (file_size : Nat) (reads : List Nat),
        (sampled_total file_size reads < 10 * 1024 * 1024 →
          (get_file_metadata_outcome file_size reads).status = 503 ∧
          (get_file_metadata_outcome file_size reads).proberInvoked = false ∧
          (get_file_metadata_outcome file_size reads).scratchDeleted = true) ∧
        (10 * 1024 * 1024 ≤ sampled_total file_size reads →
          (get_file_metadata_outcome file_size reads).status = 200 ∧
          (get_file_metadata_outcome file_size reads).proberInvoked = true ∧
          (get_file_metadata_outcome file_size reads).scratchDeleted = true ∧
          (get_file_metadata_outcome file_size reads).cached = true)) := by
  refine ⟨?_, ?_, ?_⟩
  · intro m total rest h
    have := sample_loop_replicate_zero m 149 0 total rest (by omega) h
    simpa using this
  · intro m total rest h
    have h150 : List.replicate 150 (0 : Nat) = List.replicate 149 0 ++ [0] := by
      rw [← List.replicate_succ']
    rw [h150, List.append_assoc,
      sample_loop_replicate_zero m 149 0 total ([0] ++ rest) (by omega) h]
    simp [sample_loop_cons, Nat.not_le.mpr h]
  · intro file_size reads
    constructor
    · intro h
      simp [get_file_metadata_outcome, if_pos h]
    · intro h
      simp [get_file_metadata_outcome,
        if_neg (by omega : ¬ sampled_total file_size reads < 10 * 1024 * 1024)]

/-- Witness for `metadata_probe_bounded_retry` at a concrete input: 150
consecutive empty reads with nothing yet sampled give up with 0 bytes. -/
theorem metadata_probe_bounded_retry_witness :
    (0 : Nat) < 5 ∧ sample_loop 5 (List.replicate 150 0 ++ [7]) 0 0 = 0 :=
  ⟨by decide, metadata_probe_bounded_retry.2.1 5 0 [7] (by decide)⟩

/-- C4: codec classification — the whitelisted codec strings aac, mp3, opus,
vorbis, flac are reported as not needing transcoding; ac3, eac3, dts, truehd
need transcoding; and any codec string whose lowercase form is outside the
supported whitelist needs transcoding regardless of its long name and
profile. -/
theorem codec_transcode_table :
    (∀ c ∈ (["aac", "mp3", "opus", "vorbis", "flac"] : List String),
        needs_transcoding c "" "" = false) ∧
    (∀ c ∈ (["ac3", "eac3", "dts", "truehd"] : List String),
        needs_transcoding c "" "" = true) ∧
    (∀ c ln p : String, in_supported_whitelist (toLowerStr c) = false →
        needs_transcoding c ln p = true) := by
  refine ⟨by decide, by decide, ?_⟩
  intro c ln p h
  simp [needs_transcoding, is_known_supported, h]

/-- Witness for `codec_transcode_table`: the unknown codec `pcm_s16le` is
outside the whitelist and classified as needing transcoding. -/
theorem codec_transcode_table_witness :
    in_supported_whitelist (toLowerStr "pcm_s16le") = false ∧
    needs_transcoding "pcm_s16le" "" "" = true :=
  ⟨by decide, codec_transcode_table.2.2 "pcm_s16le" "" "" (by decide)⟩

/-- C9: evaluating `stream_file` at malformed inputs shows the `u64`
subtractions underflow, contradicting the claimed totality: for a 10-byte
file and `Range: bytes=5-2` the computed `Content-Length` is
`end - start + 1 = 2^64 - 2` after wrap-around (a subtraction-overflow panic
in a debug build), and for a zero-length file `file_size - 1` wraps to
`2^64 - 1` in the `Content-Range` header. -/
theorem stream_file_range_underflow :
    (stream_file (List.replicate 10 0)
        (some ("bytes=5-2".toList))).contentLength = 2 ^ 64 - 2 ∧
    (stream_file (List.replicate 10 0)
        (some ("bytes=5-2".toList))).status = 206 ∧
    (stream_file ([] : List Nat)
        (some ("bytes=0-".toList))).contentRange =
      some (0, 2 ^ 64 - 1, 0) := by
  refine ⟨?_, ?_, ?_⟩ <;> decide

/-- C5 counterexample: at exactly 2 MB buffered (not "fewer than 2 MB") the
code still reports `initializing`, and with a transcode task attached but
completed the code reports `transcoding` although the claim requires `ready`
whenever a task is attached. -/
theorem stream_status_claim_cex :
    stream_status_of true (2 * 1024 * 1024) false false none = "initializing" ∧
    ¬(2 * 1024 * 1024 < 2 * 1024 * 1024) ∧
    stream_status_of true (3 * 1024 * 1024) false true
        (some { progress := 100, outputPath := some "p", completed := true,
                error := none }) = "transcoding" := by
  refine ⟨rfl, by omega, rfl⟩

/-- C5 (amended): the status is `initializing` exactly when the stream cannot
be opened or at most 2 MB (≤ 2·1024·1024 bytes) are buffered and the download
is not finished; once past that, it is `transcoding` exactly when transcoding
is needed and no non-completed transcode task is attached, and `ready`
exactly when no transcoding is needed or a non-completed transcode task is
attached. -/
theorem stream_status_characterization (streamable : Bool) (progress : Nat)
    (finished needs : Bool) (ts : Option TranscodeState) :
    (stream_status_of streamable progress finished needs ts = "initializing" ↔
      (streamable = false ∨ (progress ≤ 2 * 1024 * 1024 ∧ finished = false))) ∧
    (stream_status_of streamable progress finished needs ts = "transcoding" ↔
      (streamable = true ∧ (2 * 1024 * 1024 < progress ∨ finished = true) ∧
       needs = true ∧ (ts = none ∨ ∃ s, ts = some s ∧ s.completed = true))) ∧
    (stream_status_of streamable progress finished needs ts = "ready" ↔
      (streamable = true ∧ (2 * 1024 * 1024 < progress ∨ finished = true) ∧
       (needs = false ∨ ∃ s, ts = some s ∧ s.completed = false))) := by
  by_cases hp : 2 * 1024 * 1024 < progress
  all_goals rcases ts with _ | s
  all_goals cases streamable <;> cases finished <;> cases needs
  all_goals try simp [stream_status_of, hp, Nat.le_of_not_lt, Nat.not_le.mp]
  all_goals try (cases hc : s.completed <;>
    simp [stream_status_of, hp, hc, Nat.le_of_not_lt])

/-- C1: for a satisfiable `bytes=` range within file bounds, `stream_file`
answers 206 with a `Content-Range` header, and the body is exactly the slice
`[start, end]` of the file, of length `end - start + 1`; with no Range header
it answers 200 with the whole file. -/
theorem stream_file_range_correct (content : List Nat) (r : List Char)
    (s e : Nat)
    (hparse : parse_range content.length r = (s, e, true))
    (hse : s ≤ e) (hend : e < content.length)
    (hsize : content.length < 2 ^ 64) :
    (stream_file content (some r)).status = 206 ∧
    (stream_file content (some r)).contentRange = some (s, e, content.length) ∧
    (stream_file content (some r)).body = (content.drop s).take (e - s + 1) ∧
    (stream_file content (some r)).body.length = e - s + 1 ∧
    (stream_file content (some r)).contentLength = e - s + 1 ∧
    (∀ c : List Nat, 0 < c.length → c.length < 2 ^ 64 →
      (stream_file c none).status = 200 ∧
      (stream_file c none).body = c ∧
      (stream_file c none).contentLength = c.length ∧
      (stream_file c none).contentRange = none) := by
  have he64 : e < 2 ^ 64 := lt_trans hend hsize
  have hsub : sub64 e s = e - s := sub64_of_le hse he64
  have hadd : add64 (e - s) 1 = e - s + 1 := add64_of_lt (by omega)
  refine ⟨?_, ?_, ?_, ?_, ?_, ?_⟩
  · simp [stream_file, hparse]
  · simp [stream_file, hparse]
  · simp [stream_file, hparse, hsub, hadd]
  · simp [stream_file, hparse, hsub, hadd, List.length_take, List.length_drop]
    omega
  · simp [stream_file, hparse, hsub, hadd]
  · intro c hc hcs
    have hsub1 : sub64 c.length 1 = c.length - 1 := sub64_of_le hc hcs
    have hsub0 : sub64 (c.length - 1) 0 = c.length - 1 :=
      sub64_of_le (Nat.zero_le _) (by omega)
    have hadd1 : add64 (c.length - 1) 1 = c.length := by
      rw [add64_of_lt (by omega)]; omega
    refine ⟨?_, ?_, ?_, ?_⟩ <;>
      simp [stream_file, hsub1, hsub0, hadd1]

/-- Witness for `stream_file_range_correct`: a 5-byte file with
`Range: bytes=1-3` yields a 206 whose body is the 3-byte slice `[1, 3]`. -/
theorem stream_file_range_correct_witness :
    parse_range 5 ("bytes=1-3".toList) = (1, 3, true) ∧ 1 ≤ 3 ∧ 3 < 5 ∧
    (5 : Nat) < 2 ^ 64 ∧
    (stream_file [10, 20, 30, 40, 50] (some ("bytes=1-3".toList))).status = 206 ∧
    (stream_file [10, 20, 30, 40, 50] (some ("bytes=1-3".toList))).body
      = [20, 30, 40] := by
  have h := stream_file_range_correct [10, 20, 30, 40, 50] ("bytes=1-3".toList)
    1 3 (by decide) (by decide) (by decide) (by decide)
  exact ⟨by decide, by decide, by decide, by decide, h.1, by decide⟩

/-- A single reported progress value never exceeds the 99 cap. -/
theorem transcode_progress_update_le_99 (d : ℚ) (t : ℤ) :
    transcode_progress_update d t ≤ 99 := by
  unfold transcode_progress_update
  split
  · exact min_le_right _ _
  · norm_num

/-- A reported progress value for a nonnegative output time is nonnegative. -/
theorem transcode_progress_update_nonneg (d : ℚ) {t : ℤ} (ht : 0 ≤ t) :
    0 ≤ transcode_progress_update d t := by
  unfold transcode_progress_update
  split
  · rename_i hd
    refine le_min ?_ (by norm_num)
    have h0 : (0 : ℚ) ≤ (t : ℚ) := by exact_mod_cast ht
    positivity
  · exact le_refl 0

/-- The progress formula is monotone in the reported output time. -/
theorem transcode_progress_update_mono (d : ℚ) {t t' : ℤ} (h : t ≤ t') :
    transcode_progress_update d t ≤ transcode_progress_update d t' := by
  unfold transcode_progress_update
  split
  · rename_i hd
    refine min_le_min ?_ le_rfl
    have hc : (t : ℚ) ≤ (t' : ℚ) := by exact_mod_cast h
    gcongr
  · exact le_rfl

/-- C6: for nondecreasing, nonnegative output times reported by the external
process, the transcode progress values are nondecreasing over time, every
value written before a successful exit is at most 99, and on successful exit
the progress is exactly 100 with `completed = true`. -/
theorem transcode_progress_monotone (d : ℚ) (ts : List ℤ) (s : Bool)
    (op : String)
    (hmono : ts.Chain' (· ≤ ·)) (hnn : ∀ t ∈ ts, 0 ≤ t) :
    (transcode_trace d ts s).Chain' (· ≤ ·) ∧
    (∀ p ∈ 0 :: ts.map (transcode_progress_update d), p ≤ 99) ∧
    (s = true →
      (transcode_trace d ts s).getLast? = some 100 ∧
      (transcode_final op d ts s).progress = 100 ∧
      (transcode_final op d ts s).completed = true) := by
  refine ⟨?_, ?_, ?_⟩
  · unfold transcode_trace
    rw [List.chain'_cons']
    constructor
    · intro y hy
      rcases ts with _ | ⟨t, rest⟩
      · rcases s with _ | _ <;> simp_all
        subst hy; norm_num
      · simp only [List.map_cons, List.cons_append, List.head?_cons,
          Option.mem_def, Option.some.injEq] at hy
        subst hy
        exact transcode_progress_update_nonneg d (hnn t (by simp))
    · rw [List.chain'_append]
      refine ⟨?_, ?_, ?_⟩
      · rw [List.chain'_map]
        exact hmono.imp (fun a b hab => transcode_progress_update_mono d hab)
      · rcases s with _ | _ <;> simp
      · intro x hx y hy
        rcases s with _ | _
        · simp at hy
        · simp only [if_true] at hy
          simp only [List.head?_cons, Option.mem_def, Option.some.injEq] at hy
          subst hy
          have hx' := List.mem_of_mem_getLast? hx
          rcases List.mem_map.mp hx' with ⟨t, _, rfl⟩
          calc transcode_progress_update d t ≤ 99 :=
                transcode_progress_update_le_99 d t
            _ ≤ 100 := by norm_num
  · intro p hp
    rcases List.mem_cons.mp hp with rfl | hp'
    · norm_num
    · rcases List.mem_map.mp hp' with ⟨t, _, rfl⟩
      exact transcode_progress_update_le_99 d t
  · intro hs
    subst hs
    refine ⟨?_, rfl, rfl⟩
    unfold transcode_trace
    simp only [if_true]
    rw [show (0 : ℚ) :: (ts.map (transcode_progress_update d) ++ [100])
        = ((0 : ℚ) :: ts.map (transcode_progress_update d)) ++ [100] from rfl]
    exact List.getLast?_concat _

/-- Witness for `transcode_progress_monotone`: a run with two increasing
reported times and a successful exit has a nondecreasing progress trace. -/
theorem transcode_progress_monotone_witness :
    ([0, 5000000] : List ℤ).Chain' (· ≤ ·) ∧
    (∀ t ∈ ([0, 5000000] : List ℤ), 0 ≤ t) ∧
    (transcode_trace 10 [0, 5000000] true).Chain' (· ≤ ·) :=
  ⟨by norm_num [List.chain'_cons], by decide,
    (transcode_progress_monotone 10 [0, 5000000] true "out"
      (by norm_num [List.chain'_cons]) (by decide)).1⟩

/-- `evict_loop` does nothing when the cache is within the 10-entry cap. -/
theorem evict_loop_le {cache : List CachedTorrent}
    (torrents : List (Nat × TorrentEntry)) (eng : Engine)
    (h : cache.length ≤ 10) : evict_loop cache torrents eng =
      (cache, torrents, eng) := by
  unfold evict_loop
  rw [if_neg (by omega)]

/-- `evict_loop` on an 11-entry cache pops exactly the back entry, purges its
session and clears its handle binding. -/
theorem evict_loop_eleven {cache : List CachedTorrent}
    (torrents : List (Nat × TorrentEntry)) (eng : Engine)
    (oldest : CachedTorrent)
    (h : cache.length = 11) (hl : cache.getLast? = some oldest) :
    evict_loop cache torrents eng =
      (cache.dropLast, set_session torrents oldest.handle_id none,
       { eng with sessions := eng_delete eng.sessions oldest.session_id }) := by
  rw [evict_loop, if_pos (by omega), hl]
  exact evict_loop_le _ _ (by simp [List.length_dropLast, h])

/-- `evict_loop` brings any cache of at most 11 entries within the cap. -/
theorem evict_loop_len_le {cache : List CachedTorrent}
    (torrents : List (Nat × TorrentEntry)) (eng : Engine)
    (h : cache.length ≤ 11) :
    (evict_loop cache torrents eng).1.length ≤ 10 := by
  rcases Nat.lt_or_ge cache.length 11 with h10 | h11
  · rw [evict_loop_le torrents eng (by omega)]
    exact (by omega : cache.length ≤ 10)
  · have h11' : cache.length = 11 := by omega
    have hne : cache ≠ [] := by
      intro hnil; rw [hnil] at h11'; simp at h11'
    rcases List.getLast?_eq_getLast_of_ne_nil hne with hl
    rw [evict_loop_eleven torrents eng _ h11' hl]
    simp [List.length_dropLast, h11']

/-- The evicted cache is a sublist of the pre-eviction cache. -/
theorem evict_loop_sublist (cache : List CachedTorrent)
    (torrents : List (Nat × TorrentEntry)) (eng : Engine) :
    (evict_loop cache torrents eng).1.Sublist cache := by
  rw [evict_loop]
  split
  · split
    · exact (evict_loop_sublist _ _ _).trans (List.dropLast_sublist _)
    · exact List.Sublist.refl _
  · exact List.Sublist.refl _
termination_by cache.length
decreasing_by simp only [List.length_dropLast]; omega

/-- Deleting a session removes it from the engine's session table. -/
theorem eng_get_delete_self (s : List (Nat × Bool)) (sid : Nat) :
    eng_get (eng_delete s sid) sid = none := by
  induction s with
  | nil => rfl
  | cons p rest ih =>
    rcases p with ⟨k, b⟩
    by_cases h : k = sid
    · simpa [eng_delete, h] using ih
    · simpa [eng_delete, eng_get, h] using ih

/-- Pausing/unpausing only toggles the paused flag of the given session. -/
theorem eng_get_set_paused_self (s : List (Nat × Bool)) (sid : Nat) (b : Bool) :
    eng_get (eng_set_paused s sid b) sid =
      (eng_get s sid).map (fun _ => b) := by
  induction s with
  | nil => rfl
  | cons p rest ih =>
    rcases p with ⟨k, pb⟩
    simp only [eng_set_paused, eng_get]
    by_cases h : k = sid
    · rw [if_pos h, if_pos h, if_pos h]
      rfl
    · rw [if_neg h, if_neg h, ih]

/-- Pausing/unpausing does not change the set of engine session ids. -/
theorem map_fst_eng_set_paused (s : List (Nat × Bool)) (sid : Nat) (b : Bool) :
    (eng_set_paused s sid b).map Prod.fst = s.map Prod.fst := by
  induction s with
  | nil => rfl
  | cons p rest ih =>
    rcases p with ⟨k, pb⟩
    by_cases h : k = sid <;> simpa [eng_set_paused, h] using ih

/-- Rebinding one handle rewrites exactly that handle's entry. -/
theorem torrents_lookup_set_session_self (l : List (Nat × TorrentEntry))
    (k : Nat) (v : Option Nat) :
    torrents_lookup (set_session l k v) k =
      (torrents_lookup l k).map (fun e => { e with session_id := v }) := by
  induction l with
  | nil => rfl
  | cons p rest ih =>
    rcases p with ⟨k', e⟩
    simp only [set_session, torrents_lookup]
    by_cases h : k' = k
    · rw [if_pos h, if_pos h, if_pos h]
      rfl
    · rw [if_neg h, if_neg h, ih]

/-- Rebinding one handle leaves every other handle's entry unchanged. -/
theorem torrents_lookup_set_session_ne (l : List (Nat × TorrentEntry))
    (k k' : Nat) (v : Option Nat) (h : k' ≠ k) :
    torrents_lookup (set_session l k v) k' = torrents_lookup l k' := by
  induction l with
  | nil => rfl
  | cons p rest ih =>
    rcases p with ⟨k'', e⟩
    simp only [set_session, torrents_lookup]
    by_cases hk2 : k'' = k'
    · have hk : ¬ k'' = k := by omega
      rw [if_neg hk, if_pos hk2, if_pos hk2]
    · rw [if_neg hk2, if_neg hk2, ih]

/-- Filtering a handle out of the cache makes its entry unfindable. -/
theorem find_cached_filter_self (c : List CachedTorrent) (hid : Nat) :
    find_cached (c.filter (fun ct => !(decide (ct.handle_id = hid)))) hid
      = none := by
  induction c with
  | nil => rfl
  | cons ct rest ih =>
    by_cases h : ct.handle_id = hid
    · simpa [List.filter_cons, h] using ih
    · simpa [List.filter_cons, h, find_cached] using ih

/-- `stop_stream` with `delete_files = false` on a handle with a bound
session: the resulting state is the eviction loop applied to the cache with
the new entry at the front, after pausing the session. -/
theorem stop_stream_cache_eq (st : Manager) (hid now : Nat)
    (entry : TorrentEntry) (sid : Nat)
    (hentry : torrents_lookup st.torrents hid = some entry)
    (hsid : entry.session_id = some sid) :
    stop_stream st hid false now =
      { torrents :=
          (evict_loop
            (CachedTorrent.mk hid sid entry.magnet_url now ::
              retain_cache st.cache hid entry.magnet_url) st.torrents
            (if (eng_get st.engine.sessions sid).isSome then
              { st.engine with
                sessions := eng_set_paused st.engine.sessions sid true }
             else st.engine)).2.1,
        cache :=
          (evict_loop
            (CachedTorrent.mk hid sid entry.magnet_url now ::
              retain_cache st.cache hid entry.magnet_url) st.torrents
            (if (eng_get st.engine.sessions sid).isSome then
              { st.engine with
                sessions := eng_set_paused st.engine.sessions sid true }
             else st.engine)).1,
        engine :=
          (evict_loop
            (CachedTorrent.mk hid sid entry.magnet_url now ::
              retain_cache st.cache hid entry.magnet_url) st.torrents
            (if (eng_get st.engine.sessions sid).isSome then
              { st.engine with
                sessions := eng_set_paused st.engine.sessions sid true }
             else st.engine)).2.2 } := by
  simp only [stop_stream, hentry, hsid]
  rw [if_neg (by simp : ¬ (false = true))]

/-- One `stop_stream(handle, delete_files=false)` keeps the cache within the
10-entry cap. -/
theorem stop_stream_cache_le (st : Manager) (hid : Nat) (df : Bool)
    (now : Nat) (h : st.cache.length ≤ 10) :
    (stop_stream st hid df now).cache.length ≤ 10 := by
  cases hl : torrents_lookup st.torrents hid with
  | none =>
    simp only [stop_stream, hl]
    exact h
  | some entry =>
    cases hs : entry.session_id with
    | none =>
      simp only [stop_stream, hl, hs]
      exact h
    | some sid =>
      cases df with
      | true =>
        simp only [stop_stream, hl, hs]
        rw [if_pos trivial]
        exact h
      | false =>
        rw [stop_stream_cache_eq st hid now entry sid hl hs]
        apply evict_loop_len_le
        have hfil : (retain_cache st.cache hid entry.magnet_url).length
            ≤ st.cache.length := List.length_filter_le _ _
        simp only [List.length_cons]
        omega

/-- C2: after any sequence of cache-deactivations the bounded cache holds at
most 10 entries; a deactivation pushes the new `CachedTorrent` to the front,
and when the cap is exceeded exactly the back (least-recently-cached) entry
is dropped, its session is purged from the engine, and its handle's
`session_id` is cleared. -/
theorem cache_bound_and_eviction :
    (∀ (st : Manager) (ops : List (Nat × Nat)), st.cache.length ≤ 10 →
      (ops.foldl (fun s p => stop_stream s p.1 false p.2) st).cache.length
        ≤ 10) ∧
    (∀ (st : Manager) (hid now : Nat) (entry : TorrentEntry) (sid : Nat),
      st.cache.length ≤ 10 →
      torrents_lookup st.torrents hid = some entry →
      entry.session_id = some sid →
      (stop_stream st hid false now).cache.head? =
        some ⟨hid, sid, entry.magnet_url, now⟩ ∧
      (∀ oldest : CachedTorrent,
        (retain_cache st.cache hid entry.magnet_url).length = 10 →
        (retain_cache st.cache hid entry.magnet_url).getLast? = some oldest →
        (stop_stream st hid false now).cache =
          (CachedTorrent.mk hid sid entry.magnet_url now ::
            retain_cache st.cache hid entry.magnet_url).dropLast ∧
        eng_get (stop_stream st hid false now).engine.sessions
          oldest.session_id = none ∧
        (∀ e', torrents_lookup (stop_stream st hid false now).torrents
            oldest.handle_id = some e' → e'.session_id = none))) := by
  constructor
  · intro st ops
    induction ops generalizing st with
    | nil => intro h; exact h
    | cons p rest ih =>
      intro h
      exact ih _ (stop_stream_cache_le st p.1 false p.2 h)
  · intro st hid now entry sid hlen hentry hsid
    have heq := stop_stream_cache_eq st hid now entry sid hentry hsid
    have hret_le : (retain_cache st.cache hid entry.magnet_url).length
        ≤ st.cache.length := List.length_filter_le _ _
    constructor
    · rw [heq]
      rcases Nat.lt_or_ge
          (retain_cache st.cache hid entry.magnet_url).length 10 with hr | hr
      · rw [evict_loop_le _ _ (by simp only [List.length_cons]; omega)]
        rfl
      · have hr10 : (retain_cache st.cache hid entry.magnet_url).length = 10 :=
          le_antisymm (le_trans hret_le hlen) hr
        obtain ⟨r, rs, hcons⟩ : ∃ r rs,
            retain_cache st.cache hid entry.magnet_url = r :: rs := by
          cases hc : retain_cache st.cache hid entry.magnet_url with
          | nil => rw [hc] at hr10; simp at hr10
          | cons r rs => exact ⟨r, rs, rfl⟩
        have hrs : rs.length = 9 := by
          have h2 := hr10
          rw [hcons] at h2
          simp only [List.length_cons] at h2
          omega
        rw [hcons]
        rw [evict_loop_eleven _ _ ((r :: rs).getLast (by simp))
          (by simp only [List.length_cons]; omega)
          (by
            rw [List.getLast?_cons_cons]
            exact List.getLast?_eq_getLast_of_ne_nil (by simp))]
        rcases rs with _ | ⟨r2, rs2⟩
        · simp at hrs
        · rfl
    · intro oldest hretlen hlast
      obtain ⟨r, rs, hcons⟩ : ∃ r rs,
          retain_cache st.cache hid entry.magnet_url = r :: rs := by
        cases hc : retain_cache st.cache hid entry.magnet_url with
        | nil => rw [hc] at hretlen; simp at hretlen
        | cons r rs => exact ⟨r, rs, rfl⟩
      have hlen11 : (CachedTorrent.mk hid sid entry.magnet_url now ::
          retain_cache st.cache hid entry.magnet_url).length = 11 := by
        simp only [List.length_cons]; omega
      have hlast2 : (CachedTorrent.mk hid sid entry.magnet_url now ::
          retain_cache st.cache hid entry.magnet_url).getLast?
            = some oldest := by
        rw [hcons, List.getLast?_cons_cons, ← hcons]
        exact hlast
      have hev := evict_loop_eleven
        st.torrents
        (if (eng_get st.engine.sessions sid).isSome then
          { st.engine with
            sessions := eng_set_paused st.engine.sessions sid true }
         else st.engine)
        oldest hlen11 hlast2
      refine ⟨?_, ?_, ?_⟩
      · rw [heq, hev]
      · rw [heq, hev]
        exact eng_get_delete_self _ _
      · intro e' he'
        rw [heq, hev] at he'
        simp only at he'
        rw [torrents_lookup_set_session_self] at he'
        cases hlk : torrents_lookup st.torrents oldest.handle_id with
        | none => rw [hlk] at he'; simp at he'
        | some e0 =>
          rw [hlk] at he'
          simp only [Option.map_some', Option.some.injEq] at he'
          rw [← he']

/-- Witness for `cache_bound_and_eviction`: one cache-deactivation of a
fresh manager stays within the cap. -/
theorem cache_bound_and_eviction_witness :
    (([] : List CachedTorrent).length ≤ 10) ∧
    (List.foldl (fun s p => stop_stream s p.1 false p.2)
        { torrents := [(3, { magnet_url := "m", session_id := some 5 })],
          cache := [],
          engine := { sessions := [(5, false)], nextSession := 6 } }
        ([(3, 7)] : List (Nat × Nat))).cache.length ≤ 10 :=
  ⟨by decide,
    cache_bound_and_eviction.1
      { torrents := [(3, { magnet_url := "m", session_id := some 5 })],
        cache := [],
        engine := { sessions := [(5, false)], nextSession := 6 } }
      [(3, 7)] (by decide)⟩

/-- No two cache entries share a handle id or a source URI. -/
def cacheDistinct (c : List CachedTorrent) : Prop :=
  c.Pairwise (fun a b => a.handle_id ≠ b.handle_id ∧ a.magnet_url ≠ b.magnet_url)

/-- C10: `stop_stream` preserves cache distinctness — before inserting the
new entry it removes every entry with the same handle id or the same magnet
URL, so each handle and each URI occurs at most once in the cache. -/
theorem cache_no_duplicates (st : Manager) (hid : Nat) (df : Bool) (now : Nat)
    (h : cacheDistinct st.cache) :
    cacheDistinct (stop_stream st hid df now).cache := by
  cases hl : torrents_lookup st.torrents hid with
  | none =>
    simp only [stop_stream, hl]
    exact h
  | some entry =>
    cases hs : entry.session_id with
    | none =>
      simp only [stop_stream, hl, hs]
      exact h
    | some sid =>
      cases df with
      | true =>
        simp only [stop_stream, hl, hs]
        rw [if_pos trivial]
        exact h
      | false =>
        rw [stop_stream_cache_eq st hid now entry sid hl hs]
        refine List.Pairwise.sublist (evict_loop_sublist _ _ _) ?_
        simp only [retain_cache]
        constructor
        · intro b hb
          have hb' := List.of_mem_filter hb
          simp only [Bool.and_eq_true, decide_eq_true_eq] at hb'
          exact ⟨fun hx => hb'.1 hx.symm, fun hx => hb'.2 hx.symm⟩
        · exact List.Pairwise.sublist (List.filter_sublist _) h

/-- Witness for `cache_no_duplicates` at a concrete single-handle manager. -/
theorem cache_no_duplicates_witness :
    cacheDistinct ([] : List CachedTorrent) ∧
    cacheDistinct ((stop_stream
      { torrents := [(0, { magnet_url := "m", session_id := some 4 })],
        cache := [],
        engine := { sessions := [(4, false)], nextSession := 5 } }
      0 false 9).cache) :=
  ⟨by simp [cacheDistinct],
    cache_no_duplicates
      { torrents := [(0, { magnet_url := "m", session_id := some 4 })],
        cache := [],
        engine := { sessions := [(4, false)], nextSession := 5 } }
      0 false 9 (by simp [cacheDistinct])⟩

/-- C3: activating a handle whose `CachedTorrent` still has its session in
the engine resumes (unpauses) exactly that session and rebinds it to the
handle: the engine's session-id set and next-session counter are unchanged
(no new session is added), the handle's single `session_id` binding becomes
the cached id, the cache entry is removed, and no other handle's binding
changes. -/
theorem reactivation_no_new_session (st : Manager) (hid : Nat)
    (entry : TorrentEntry) (ct : CachedTorrent) (pausedFlag : Bool)
    (hentry : torrents_lookup st.torrents hid = some entry)
    (hct : find_cached st.cache hid = some ct)
    (heng : eng_get st.engine.sessions ct.session_id = some pausedFlag) :
    ∃ st', prepare_stream st hid = some st' ∧
      st'.engine.sessions.map Prod.fst = st.engine.sessions.map Prod.fst ∧
      st'.engine.nextSession = st.engine.nextSession ∧
      eng_get st'.engine.sessions ct.session_id = some false ∧
      torrents_lookup st'.torrents hid =
        some { entry with session_id := some ct.session_id } ∧
      find_cached st'.cache hid = none ∧
      (∀ h', h' ≠ hid →
        torrents_lookup st'.torrents h' = torrents_lookup st.torrents h') := by
  cases pausedFlag with
  | true =>
    have hprep : prepare_stream st hid = some
        { torrents := set_session st.torrents hid (some ct.session_id),
          cache := st.cache.filter (fun c => !(decide (c.handle_id = hid))),
          engine := { sessions :=
                        eng_set_paused st.engine.sessions ct.session_id false,
                      nextSession := st.engine.nextSession } } := by
      simp only [prepare_stream, hentry, hct, Option.map_some', heng]
      rw [if_pos trivial]
    refine ⟨_, hprep, ?_, rfl, ?_, ?_, ?_, ?_⟩
    · exact map_fst_eng_set_paused _ _ _
    · rw [eng_get_set_paused_self, heng]
      rfl
    · rw [torrents_lookup_set_session_self, hentry]
      rfl
    · exact find_cached_filter_self _ _
    · intro h' hne
      exact torrents_lookup_set_session_ne _ _ _ _ hne
  | false =>
    have hprep : prepare_stream st hid = some
        { torrents := set_session st.torrents hid (some ct.session_id),
          cache := st.cache.filter (fun c => !(decide (c.handle_id = hid))),
          engine := st.engine } := by
      simp only [prepare_stream, hentry, hct, Option.map_some', heng]
      rw [if_neg (by simp)]
    refine ⟨_, hprep, rfl, rfl, heng, ?_, ?_, ?_⟩
    · rw [torrents_lookup_set_session_self, hentry]
      rfl
    · exact find_cached_filter_self _ _
    · intro h' hne
      exact torrents_lookup_set_session_ne _ _ _ _ hne

/-- Witness for `reactivation_no_new_session`: a manager with one cached
paused session resumes it without touching the next-session counter. -/
theorem reactivation_no_new_session_witness :
    ∃ st', prepare_stream
        { torrents := [(1, { magnet_url := "m", session_id := none })],
          cache := [{ handle_id := 1, session_id := 4, magnet_url := "m",
                      cached_at := 0 }],
          engine := { sessions := [(4, true)], nextSession := 5 } } 1
      = some st' ∧ st'.engine.nextSession = 5 := by
  obtain ⟨st', h1, _, h3, _⟩ := reactivation_no_new_session
    { torrents := [(1, { magnet_url := "m", session_id := none })],
      cache := [{ handle_id := 1, session_id := 4, magnet_url := "m",
                  cached_at := 0 }],
      engine := { sessions := [(4, true)], nextSession := 5 } }
    1 { magnet_url := "m", session_id := none }
    { handle_id := 1, session_id := 4, magnet_url := "m", cached_at := 0 }
    true (by decide) (by decide) (by decide)
  exact ⟨st', h1, h3⟩

/-- `status_metadata` reads only the metadata cache, never the
transcode-state map. -/
theorem status_metadata_congr (inp : StatusInputs) (maps1 maps2 : ManagerMaps)
    (h : maps1.metadataCache = maps2.metadataCache) :
    status_metadata inp maps1 = status_metadata inp maps2 := by
  simp only [status_metadata, h]

/-- C8 counterexample: a poll on a ready stream whose cached metadata needs
transcoding, with no transcode state yet, inserts a transcode-state entry —
the transcode-state map grows from 0 to 1 entries, so `get_stream_status` is
not free of persisted-state modification. -/
theorem stream_status_frame_cex :
    (ManagerMaps.transcodeStates (get_stream_status
        { sessionId := 1, fileIndex := 0, isStreamable := true,
          progressBytes := 3 * 1024 * 1024, totalBytes := 100 * 1024 * 1024,
          finished := false, fileNameSupported := true, fileOnDisk := false,
          ffprobeResult := none }
        { transcodeStates := [],
          metadataCache := [((1, 0), { needsAudioTranscoding := true })] }).2).length
      = 1 ∧
    (ManagerMaps.transcodeStates
      ({ transcodeStates := [],
         metadataCache := [((1, 0), { needsAudioTranscoding := true })] }
        : ManagerMaps)).length = 0 := by
  exact ⟨rfl, rfl⟩

/-- C8 (amended): one `get_stream_status` poll never changes the metadata
cache; the transcode-state map is either unchanged or — exactly when the
polled key had no transcode state and the resolved metadata requires
transcoding — extended with the initial zero state for that key; and a
second poll with the same inputs changes nothing (idempotent recomputation). -/
theorem stream_status_frame_effect (inp : StatusInputs) (maps : ManagerMaps) :
    (get_stream_status inp maps).2.metadataCache = maps.metadataCache ∧
    ((get_stream_status inp maps).2.transcodeStates = maps.transcodeStates ∨
      (al_lookup maps.transcodeStates (inp.sessionId, inp.fileIndex) = none ∧
       (get_stream_status inp maps).2.transcodeStates =
         ((inp.sessionId, inp.fileIndex), initial_transcode_state)
           :: maps.transcodeStates)) ∧
    (get_stream_status inp (get_stream_status inp maps).2).2 =
      (get_stream_status inp maps).2 := by
  cases hready : inp.isStreamable
      && (decide (2 * 1024 * 1024 < inp.progressBytes) || inp.finished) with
  | false =>
    have h2 : (get_stream_status inp maps).2 = maps := by
      simp [get_stream_status, hready]
    refine ⟨by rw [h2], Or.inl (by rw [h2]), ?_⟩
    rw [h2]
    exact h2
  | true =>
    cases hmeta : status_metadata inp maps with
    | none =>
      have h2 : (get_stream_status inp maps).2 = maps := by
        simp [get_stream_status, hready, hmeta]
      refine ⟨by rw [h2], Or.inl (by rw [h2]), ?_⟩
      rw [h2]
      exact h2
    | some m =>
      cases hneeds : m.needsAudioTranscoding with
      | false =>
        have h2 : (get_stream_status inp maps).2 = maps := by
          simp [get_stream_status, hready, hmeta, hneeds]
        refine ⟨by rw [h2], Or.inl (by rw [h2]), ?_⟩
        rw [h2]
        exact h2
      | true =>
        cases hlk : al_lookup maps.transcodeStates
            (inp.sessionId, inp.fileIndex) with
        | some ts0 =>
          have h2 : (get_stream_status inp maps).2 = maps := by
            simp [get_stream_status, hready, hmeta, hneeds, hlk]
          refine ⟨by rw [h2], Or.inl (by rw [h2]), ?_⟩
          rw [h2]
          exact h2
        | none =>
          have h2 : (get_stream_status inp maps).2 =
              { transcodeStates :=
                  ((inp.sessionId, inp.fileIndex), initial_transcode_state)
                    :: maps.transcodeStates,
                metadataCache := maps.metadataCache } := by
            simp [get_stream_status, hready, hmeta, hneeds, hlk]
          have hmeta2 : status_metadata inp
              ({ transcodeStates :=
                   ((inp.sessionId, inp.fileIndex), initial_transcode_state)
                     :: maps.transcodeStates,
                 metadataCache := maps.metadataCache } : ManagerMaps)
              = some m :=
            (status_metadata_congr inp
              { transcodeStates :=
                  ((inp.sessionId, inp.fileIndex), initial_transcode_state)
                    :: maps.transcodeStates,
                metadataCache := maps.metadataCache } maps rfl).trans hmeta
          have hlk2 : al_lookup
              (((inp.sessionId, inp.fileIndex), initial_transcode_state)
                :: maps.transcodeStates) (inp.sessionId, inp.fileIndex)
              = some initial_transcode_state := by
            simp [al_lookup]
          have h3 : (get_stream_status inp
              ({ transcodeStates :=
                   ((inp.sessionId, inp.fileIndex), initial_transcode_state)
                     :: maps.transcodeStates,
                 metadataCache := maps.metadataCache } : ManagerMaps)).2 =
              { transcodeStates :=
                  ((inp.sessionId, inp.fileIndex), initial_transcode_state)
                    :: maps.transcodeStates,
                metadataCache := maps.metadataCache } := by
            simp [get_stream_status, hready, hmeta2, hneeds, hlk2]
          refine ⟨by rw [h2], Or.inr ⟨rfl, ?_⟩, ?_⟩
          · rw [h2]
          · rw [h2]
            exact h3

end Magnolia
